import Mathlib

/-!
Verification of the onionutil v2 onion-service descriptor codec and
identifier-derivation algorithm (oniondesc.go, intropoint.go).

Byte strings are modelled as `List Nat` (`Str`).  The repository code under
`src/` is translated directly.  Collaborators that the specification treats
as external (the document tokenizer `torparse`, the key codec `pkcs1`, the
base-32 codec, the digest, the port parser, `net.IP`, `crypto/sha1`, time
formatting) are either modelled from the specification's words, or supplied
as parameters in an `Externals` record where the specification itself calls
them configuration parameters.
-/

abbrev Str := List Nat

/-- Byte string of an ASCII string literal (character code points). -/
def strB (s : String) : Str := s.data.map Char.toNat

/-! ### Little-endian base-`b` digits, structurally recursive (fuel-based) -/

def digitsBAux (b : Nat) : Nat → Nat → List Nat
  | _, 0 => []
  | 0, _+1 => []
  | fuel+1, n+1 => (n+1) % b :: digitsBAux b fuel ((n+1) / b)

/-- Little-endian digits of `n` in base `b` (agrees with `Nat.digits` for `1 < b`). -/
def digitsB (b n : Nat) : List Nat := digitsBAux b n n

theorem digitsBAux_eq (b : Nat) (hb : 1 < b) :
    ∀ fuel n, n ≤ fuel → digitsBAux b fuel n = Nat.digits b n := by
  intro fuel
  induction fuel with
  | zero => intro n hn; interval_cases n; simp [digitsBAux]
  | succ f ih =>
    intro n hn
    match n with
    | 0 => simp [digitsBAux]
    | m+1 =>
      rw [digitsBAux, Nat.digits_def' hb (Nat.succ_pos m)]
      congr 1
      have h2 : (m+1)/b < m+1 := Nat.div_lt_self (Nat.succ_pos m) hb
      exact ih _ (by omega)

theorem digitsB_eq (b n : Nat) (hb : 1 < b) : digitsB b n = Nat.digits b n :=
  digitsBAux_eq b hb n n le_rfl

theorem ofDigits_digitsB (b n : Nat) (hb : 1 < b) :
    Nat.ofDigits b (digitsB b n) = n := by
  rw [digitsB_eq b n hb]; exact_mod_cast Nat.ofDigits_digits b n

theorem digitsB_lt (b n : Nat) (hb : 1 < b) : ∀ d ∈ digitsB b n, d < b := by
  rw [digitsB_eq b n hb]
  intro d hd
  exact Nat.digits_lt_base hb hd

/-! ### Splitting a byte string at the first occurrence of a byte -/

def splitAtByte (b : Nat) : Str → Option (Str × Str)
  | [] => none
  | x :: rest =>
    if x = b then some ([], rest)
    else
      match splitAtByte b rest with
      | some (pre, post) => some (x :: pre, post)
      | none => none

theorem splitAtByte_append (b : Nat) (pre post : Str) (h : b ∉ pre) :
    splitAtByte b (pre ++ b :: post) = some (pre, post) := by
  induction pre with
  | nil => simp [splitAtByte]
  | cons x xs ih =>
    have hx : x ≠ b := by intro he; exact h (by simp [he])
    have hxs : b ∉ xs := by intro hm; exact h (by simp [hm])
    simp [splitAtByte, hx, ih hxs]

/-! ### Token items and their byte serialization

Modelled from the spec: the DocumentTokenizer (`torparse.ParseTorDocument`)
"splits a raw text blob into a sequence of records, each a mapping from
field name to one or more token groups, plus any unconsumed trailing
bytes".  A blob is a sequence of token items: a keyword line with its
arguments (`kv`), or a PEM-armored object with its type label and decoded
payload bytes (`obj`).  The concrete line/armor syntax is the tokenizer's
internal detail; the byte form of an item stream is modelled as an
injective length-prefixed coding with inverse `scanItems`. -/

inductive Item where
  | kv (k : Str) (v : Str)
  | obj (t : Str) (payload : Str)
deriving DecidableEq, Repr

/-- Length-prefixed byte coding of a string: base-255 digits of the length,
a 255 terminator, then the bytes themselves. -/
def encStr (s : Str) : Str := digitsB 255 s.length ++ 255 :: s

def renderItem : Item → Str
  | Item.kv k v => 0 :: (encStr k ++ encStr v)
  | Item.obj t p => 1 :: (encStr t ++ encStr p)

/-- Byte serialization of a token-item stream. -/
def renderItems (xs : List Item) : Str := xs.flatMap renderItem

/-- Reads one length-prefixed string off the front of a byte string. -/
def readStr (s : Str) : Option (Str × Str) :=
  match splitAtByte 255 s with
  | none => none
  | some (lenDigits, rest) =>
    let n := Nat.ofDigits 255 lenDigits
    if n ≤ rest.length then some (rest.take n, rest.drop n) else none

theorem readStr_encStr (s t : Str) : readStr (encStr s ++ t) = some (s, t) := by
  have hnm : (255 : Nat) ∉ digitsB 255 s.length := by
    intro hm
    exact absurd (digitsB_lt 255 s.length (by omega) 255 hm) (by omega)
  have hsplit : splitAtByte 255 (digitsB 255 s.length ++ 255 :: (s ++ t)) =
      some (digitsB 255 s.length, s ++ t) := splitAtByte_append _ _ _ hnm
  simp only [readStr, encStr, List.append_assoc, List.cons_append, hsplit,
    ofDigits_digitsB 255 s.length (by omega)]
  rw [if_pos (by simp)]
  rw [List.take_left, List.drop_left]

/-- Scanner from bytes back to token items; fuel-based so that it is
structurally recursive (the fuel `s.length` always suffices: each item
consumes at least one byte).  Unscannable trailing bytes are returned as
the remainder. -/
def scanItemsAux : Nat → Str → List Item × Str
  | 0, s => ([], s)
  | fuel+1, s =>
    match s with
    | 0 :: rest =>
      (match readStr rest with
       | some (k, r1) =>
         (match readStr r1 with
          | some (v, r2) =>
            let p := scanItemsAux fuel r2
            (Item.kv k v :: p.1, p.2)
          | none => ([], 0 :: rest))
       | none => ([], 0 :: rest))
    | 1 :: rest =>
      (match readStr rest with
       | some (t, r1) =>
         (match readStr r1 with
          | some (payload, r2) =>
            let p := scanItemsAux fuel r2
            (Item.obj t payload :: p.1, p.2)
          | none => ([], 1 :: rest))
       | none => ([], 1 :: rest))
    | other => ([], other)

def scanItems (s : Str) : List Item × Str := scanItemsAux s.length s

theorem scanItemsAux_nil (fuel : Nat) : scanItemsAux fuel [] = ([], []) := by
  cases fuel <;> rfl

theorem scanItemsAux_render (xs : List Item) :
    ∀ fuel, xs.length ≤ fuel → scanItemsAux fuel (renderItems xs) = (xs, []) := by
  induction xs with
  | nil => intro fuel _; simp [renderItems]; exact scanItemsAux_nil fuel
  | cons x xs ih =>
    intro fuel hfuel
    match fuel with
    | 0 => exact absurd hfuel (by simp)
    | f+1 =>
      have hx : xs.length ≤ f := by simp at hfuel; omega
      cases x with
      | kv k v =>
        show scanItemsAux (f+1) (renderItem (Item.kv k v) ++ renderItems xs) = _
        simp only [renderItem, List.cons_append, List.append_assoc]
        simp only [scanItemsAux, readStr_encStr, ih f hx]
      | obj t p =>
        show scanItemsAux (f+1) (renderItem (Item.obj t p) ++ renderItems xs) = _
        simp only [renderItem, List.cons_append, List.append_assoc]
        simp only [scanItemsAux, readStr_encStr, ih f hx]

theorem renderItems_length_ge (xs : List Item) : xs.length ≤ (renderItems xs).length := by
  induction xs with
  | nil => simp [renderItems]
  | cons x xs ih =>
    have hx : 1 ≤ (renderItem x).length := by cases x <;> simp [renderItem]
    show xs.length + 1 ≤ (renderItem x ++ renderItems xs).length
    simp only [List.length_append]
    omega

theorem scanItems_render (xs : List Item) : scanItems (renderItems xs) = (xs, []) :=
  scanItemsAux_render xs _ (renderItems_length_ge xs)

/-! ### From token items to documents

Modelled from the spec: "Each logical record begins with a marker field and
continues until the next marker or end of input."  A keyword line's
arguments form a token group of that keyword; a PEM object directly
following a bare keyword line attaches its payload as that keyword's token
group (this is how `permanent-key`, `introduction-points` and `signature`
carry their binary payloads). -/

abbrev Tok := Str × Str

abbrev Doc := List Tok

/-- Token groups of an item stream: each keyword line yields a `(keyword,
group)` pair; an object following a bare keyword supplies that keyword's
group. -/
def tokenize : List Item → List Tok
  | [] => []
  | Item.obj _ _ :: rest => tokenize rest
  | [Item.kv k v] => [(k, v)]
  | Item.kv k v :: Item.obj _ p :: rest =>
    if v = [] then (k, p) :: tokenize rest
    else (k, v) :: (k, p) :: tokenize rest
  | Item.kv k v :: Item.kv k2 v2 :: rest =>
    (k, v) :: tokenize (Item.kv k2 v2 :: rest)

/-- `True` when the stream is empty or ends with an object item, so that
concatenating a further stream cannot merge across the boundary. -/
def endsSafe (xs : List Item) : Bool :=
  match xs.getLast? with
  | none => true
  | some (Item.obj _ _) => true
  | some (Item.kv _ _) => false

theorem tokenize_append (xs ys : List Item) (h : endsSafe xs = true) :
    tokenize (xs ++ ys) = tokenize xs ++ tokenize ys := by
  induction xs with
  | nil => simp [tokenize]
  | cons x xs ih =>
    cases x with
    | obj t p =>
      have hxs : endsSafe xs = true := by
        cases xs with
        | nil => rfl
        | cons y ys' => simpa [endsSafe, List.getLast?_cons_cons] using h
      simp only [List.cons_append, tokenize, List.append_eq, ih hxs]
    | kv k v =>
      cases xs with
      | nil => simp [endsSafe, List.getLast?] at h
      | cons x2 xs2 =>
        have hxs : endsSafe (x2 :: xs2) = true := by
          simpa [endsSafe, List.getLast?_cons_cons] using h
        cases x2 with
        | obj t2 p2 =>
          have hxs2 : tokenize (xs2 ++ ys) = tokenize xs2 ++ tokenize ys := by
            have h2 := ih hxs
            simpa only [tokenize, List.cons_append, List.append_eq] using h2
          by_cases hv : v = []
          · simp only [List.cons_append, tokenize, List.append_eq, hv, if_true, hxs2]
          · simp only [List.cons_append, tokenize, List.append_eq, hv, if_false, hxs2]
        | kv k2 v2 =>
          have h2 := ih hxs
          simp only [List.cons_append, tokenize, List.append_eq] at h2 ⊢
          rw [h2]

/-- Splits a token stream into documents: a token whose keyword equals the
marker closes the current document and starts a new one. -/
def splitDocsGo (marker : Str) : List Tok → Doc → List Doc
  | [], cur => [cur.reverse]
  | t :: rest, cur =>
    if t.1 = marker then cur.reverse :: splitDocsGo marker rest [t]
    else splitDocsGo marker rest (t :: cur)

/-- Documents of a token stream; the first token's keyword is the marker
that begins each record. -/
def docsOfToks : List Tok → List Doc
  | [] => []
  | t :: rest => splitDocsGo t.1 rest [t]

def docsOfItems (items : List Item) : List Doc := docsOfToks (tokenize items)

/-- Modelled from the spec: `torparse.ParseTorDocument` splits a raw text
blob into a sequence of records plus any unconsumed trailing bytes. -/
def ParseTorDocument (s : Str) : List Doc × Str :=
  let pr := scanItems s
  (docsOfItems pr.1, pr.2)

/-- Token groups of a keyword inside one document, in source order (the
empty list when the field is absent, like a Go nil map entry). -/
def docGet (d : Doc) (k : Str) : List Str :=
  d.filterMap (fun p => if p.1 = k then some p.2 else none)

def hasKey (d : Doc) (k : Str) : Bool := d.any (fun p => p.1 = k)

/-- `FJoined`: all token groups of a keyword, concatenated. -/
def fjoined (d : Doc) (k : Str) : Str := (docGet d k).flatten

theorem splitDocsGo_no_marker (m : Str) (ts : List Tok)
    (h : ∀ t ∈ ts, t.1 ≠ m) (rest : List Tok) (cur : Doc) :
    splitDocsGo m (ts ++ rest) cur = splitDocsGo m rest (ts.reverse ++ cur) := by
  induction ts generalizing cur with
  | nil => simp
  | cons t ts ih =>
    have ht : t.1 ≠ m := h t (by simp)
    have hts : ∀ t' ∈ ts, t'.1 ≠ m := fun t' ht' => h t' (by simp [ht'])
    simp only [List.cons_append, splitDocsGo, ht, if_false]
    simp only [List.reverse_cons, List.append_assoc, List.singleton_append]
    exact ih hts (t :: cur)

/-- A well-formed group: nonempty, begins with a marker token, and contains
no further marker tokens. -/
def MarkerGroup (m : Str) (g : Doc) : Prop :=
  ∃ t ts, g = t :: ts ∧ t.1 = m ∧ ∀ t' ∈ ts, t'.1 ≠ m

theorem splitDocsGo_groups (m : Str) (gs : List Doc)
    (h : ∀ g ∈ gs, MarkerGroup m g) (cur : Doc) :
    splitDocsGo m gs.flatten cur = cur.reverse :: gs := by
  induction gs generalizing cur with
  | nil => simp [splitDocsGo]
  | cons g gs ih =>
    obtain ⟨t, ts, hg, htm, hts⟩ := h g (by simp)
    have hgs : ∀ g' ∈ gs, MarkerGroup m g' := fun g' hg' => h g' (by simp [hg'])
    subst hg
    simp only [List.flatten_cons, List.cons_append, List.append_assoc, splitDocsGo,
      htm, if_pos, List.append_eq]
    rw [splitDocsGo_no_marker m ts hts _ _, ih hgs]
    simp

theorem docsOfToks_groups (m : Str) (gs : List Doc) (hne : gs ≠ [])
    (h : ∀ g ∈ gs, MarkerGroup m g) :
    docsOfToks gs.flatten = gs := by
  match gs, hne with
  | g :: gs', _ =>
    obtain ⟨t, ts, hg, htm, hts⟩ := h g (by simp)
    have hgs : ∀ g' ∈ gs', MarkerGroup m g' := fun g' hg' => h g' (by simp [hg'])
    subst hg
    simp only [List.flatten_cons, List.cons_append, docsOfToks, htm, List.append_eq]
    rw [splitDocsGo_no_marker m ts hts _ _, splitDocsGo_groups m gs' hgs]
    simp

/-! ### Base-32 text codec

Modelled from the spec: `Base32Encode`/`Base32Decode` — "identifiers are
base-32 encoded in text form"; the identity "field value is base-32 text;
decode to raw bytes".  Modelled as a per-byte two-character encoding over
the base-32 alphabet a–z, 2–7 (high five bits would need only a–h; the
exact bit packing is the codec's internal detail). -/

def b32chr (i : Nat) : Nat := if i < 26 then 97 + i else 24 + i

def b32chrInv (c : Nat) : Option Nat :=
  if 97 ≤ c ∧ c ≤ 122 then some (c - 97)
  else if 50 ≤ c ∧ c ≤ 55 then some (c - 24)
  else none

def Base32Encode (b : Str) : Str := b.flatMap (fun x => [b32chr (x / 32), b32chr (x % 32)])

def Base32Decode : Str → Option Str
  | [] => some []
  | c1 :: c2 :: rest =>
    (match b32chrInv c1, b32chrInv c2, Base32Decode rest with
     | some hi, some lo, some r => if hi < 8 then some ((hi * 32 + lo) :: r) else none
     | _, _, _ => none)
  | [_] => none

theorem b32chrInv_b32chr (i : Nat) (h : i < 32) : b32chrInv (b32chr i) = some i := by
  unfold b32chr b32chrInv
  by_cases h26 : i < 26
  · rw [if_pos h26, if_pos (by omega)]
    simp
  · rw [if_neg h26, if_neg (by omega), if_pos (by omega)]
    simp

theorem Base32Decode_Encode (b : Str) (h : ∀ x ∈ b, x < 256) :
    Base32Decode (Base32Encode b) = some b := by
  induction b with
  | nil => simp [Base32Encode, Base32Decode]
  | cons x xs ih =>
    have hx : x < 256 := h x (by simp)
    have hxs : ∀ y ∈ xs, y < 256 := fun y hy => h y (by simp [hy])
    have hhi : x / 32 < 32 := by omega
    have hlo : x % 32 < 32 := by omega
    show Base32Decode (b32chr (x / 32) :: b32chr (x % 32) :: Base32Encode xs) = _
    rw [Base32Decode, b32chrInv_b32chr _ hhi, b32chrInv_b32chr _ hlo, ih hxs]
    show (if x / 32 < 8 then some ((x / 32 * 32 + x % 32) :: xs) else none) = some (x :: xs)
    rw [if_pos (by omega)]
    congr 2
    omega

/-! ### Decimal integer text

Models the decimal rendering of `fmt.Fprintf` `%d`/`%v` and the decimal
parsing of `strconv.ParseInt(s, 10, 0)`. -/

def natToDec (n : Nat) : Str :=
  if n = 0 then [48] else (digitsB 10 n).reverse.map (· + 48)

def parseDecNat (s : Str) : Option Nat :=
  if s = [] then none
  else if s.all (fun c => decide (48 ≤ c) && decide (c ≤ 57)) then
    some (Nat.ofDigits 10 ((s.map (· - 48)).reverse))
  else none

def intToDec (v : Int) : Str :=
  if v < 0 then 45 :: natToDec (-v).toNat else natToDec v.toNat

def parseDecInt (s : Str) : Option Int :=
  match s with
  | 45 :: rest => (parseDecNat rest).map (fun n => -(n : Int))
  | _ => (parseDecNat s).map (fun n => (n : Int))

theorem parseDecNat_natToDec (n : Nat) : parseDecNat (natToDec n) = some n := by
  by_cases h0 : n = 0
  · subst h0; rfl
  · have hne : digitsB 10 n ≠ [] := by
      rw [digitsB_eq 10 n (by omega)]
      simpa using Nat.digits_ne_nil_iff_ne_zero.mpr h0
    have hlt : ∀ d ∈ digitsB 10 n, d < 10 := digitsB_lt 10 n (by omega)
    unfold natToDec parseDecNat
    rw [if_neg h0]
    rw [if_neg (by simpa using hne)]
    rw [if_pos]
    · congr 1
      have hmap : ∀ l : List Nat, (l.map (· + 48)).map (· - 48) = l := by
        intro l
        rw [List.map_map]
        induction l with
        | nil => rfl
        | cons a l ihl => simp only [List.map_cons, ihl]; simp
      rw [hmap, List.reverse_reverse]
      exact ofDigits_digitsB 10 n (by omega)
    · rw [List.all_eq_true]
      intro c hc
      simp only [List.mem_map, List.mem_reverse] at hc
      obtain ⟨d, hd, rfl⟩ := hc
      have := hlt d hd
      simp only [Bool.and_eq_true, decide_eq_true_eq]
      omega

theorem natToDec_no_minus (n : Nat) : ∀ c ∈ natToDec n, 48 ≤ c := by
  intro c hc
  unfold natToDec at hc
  by_cases h0 : n = 0
  · simp [h0] at hc
    omega
  · rw [if_neg h0] at hc
    simp only [List.mem_map, List.mem_reverse] at hc
    obtain ⟨d, _, rfl⟩ := hc
    omega

theorem parseDecInt_intToDec (v : Int) : parseDecInt (intToDec v) = some v := by
  by_cases hneg : v < 0
  · unfold intToDec
    rw [if_pos hneg]
    show (parseDecNat (natToDec (-v).toNat)).map (fun n => -(n : Int)) = some v
    rw [parseDecNat_natToDec]
    have hv : (((-v).toNat : Int)) = -v := by omega
    simp [hv]
  · unfold intToDec
    rw [if_neg hneg]
    have hres : parseDecInt (natToDec v.toNat) =
        (parseDecNat (natToDec v.toNat)).map (fun n => (n : Int)) := by
      unfold parseDecInt
      split
      · rename_i rest heq
        exfalso
        have h45 := natToDec_no_minus v.toNat 45 (by rw [heq]; simp)
        omega
      · rfl
    rw [hres, parseDecNat_natToDec]
    have hv : ((v.toNat : Int)) = v := by omega
    simp [hv]

/-! ### RSA public keys and the DER key codec

Modelled from the spec: KeyCodec (`pkcs1.EncodePublicKeyDER` /
`pkcs1.DecodePublicKeyDER`) "encodes/decodes an RSA public key to/from a
DER byte sequence"; encoding "a key that is structurally invalid" is an
irrecoverable error.  The DER byte layout is the codec's internal detail;
it is modelled as an injective terminator-delimited byte coding of the
modulus and exponent.  The decoder, like the Go original, returns the
decoded key together with the unconsumed rest of the input. -/

structure RSAPublicKey where
  N : Nat
  E : Nat
deriving DecidableEq, Repr

def EncodePublicKeyDER (k : RSAPublicKey) : Option Str :=
  if k.N = 0 ∨ k.E = 0 then none
  else some (digitsB 255 k.N ++ 255 :: (digitsB 255 k.E ++ [255]))

def DecodePublicKeyDER (s : Str) : Option (RSAPublicKey × Str) :=
  match splitAtByte 255 s with
  | none => none
  | some (ns, r1) =>
    match splitAtByte 255 r1 with
    | none => none
    | some (es, r2) => some ({ N := Nat.ofDigits 255 ns, E := Nat.ofDigits 255 es }, r2)

theorem DecodePublicKeyDER_Encode (k : RSAPublicKey) (der : Str)
    (h : EncodePublicKeyDER k = some der) : DecodePublicKeyDER der = some (k, []) := by
  unfold EncodePublicKeyDER at h
  by_cases hv : k.N = 0 ∨ k.E = 0
  · rw [if_pos hv] at h; exact absurd h (by simp)
  · rw [if_neg hv] at h
    have hder : der = digitsB 255 k.N ++ 255 :: (digitsB 255 k.E ++ [255]) := by
      injection h.symm
    subst hder
    have hnN : (255 : Nat) ∉ digitsB 255 k.N := by
      intro hm; exact absurd (digitsB_lt 255 k.N (by omega) 255 hm) (by omega)
    have hnE : (255 : Nat) ∉ digitsB 255 k.E := by
      intro hm; exact absurd (digitsB_lt 255 k.E (by omega) 255 hm) (by omega)
    have e1 : splitAtByte 255 (digitsB 255 k.N ++ 255 :: (digitsB 255 k.E ++ [255])) =
        some (digitsB 255 k.N, digitsB 255 k.E ++ [255]) := splitAtByte_append _ _ _ hnN
    have e2 : splitAtByte 255 (digitsB 255 k.E ++ [255]) = some (digitsB 255 k.E, []) :=
      splitAtByte_append 255 _ ([] : Str) hnE
    unfold DecodePublicKeyDER
    simp only [e1, e2]
    simp [ofDigits_digitsB 255 k.N (by omega), ofDigits_digitsB 255 k.E (by omega)]

/-! ### Port parsing

Modelled from the spec: `InetPortFromByteString` — the port "field value
parsed as an unsigned 16-bit decimal port; out-of-range or non-numeric
rejects the record". -/

def InetPortFromByteString (s : Str) : Option Nat :=
  match parseDecNat s with
  | none => none
  | some n => if n < 65536 then some n else none

theorem InetPort_natToDec (n : Nat) (h : n < 65536) :
    InetPortFromByteString (natToDec n) = some n := by
  unfold InetPortFromByteString
  rw [parseDecNat_natToDec]
  simp [h]

/-! ### External collaborators

`net.IP` values, `crypto/sha1`, the publication-time formatter and the
descriptor-body digest (`onionutil.Hash`, whose "algorithm is a
configuration parameter, not fixed by this component" per the spec) are
external to the code under verification and are supplied as parameters. -/

structure NetIP where
  bytes : Str
deriving DecidableEq, Repr

structure Externals where
  sha1 : Str → Str
  ipToString : NetIP → Str
  parseIP : Str → Option NetIP
  timeFormat : Int → Str
  hash : Str → Str

/-! ### Keyword and PEM-type constants of the wire format -/

def kIntroPoint : Str := strB "introduction-point"
def kIpAddress : Str := strB "ip-address"
def kOnionPort : Str := strB "onion-port"
def kOnionKey : Str := strB "onion-key"
def kServiceKey : Str := strB "service-key"
def kRendezvous : Str := strB "rendezvous-service-descriptor"
def kVersion : Str := strB "version"
def kPermanentKey : Str := strB "permanent-key"
def kSecretIdPart : Str := strB "secret-id-part"
def kPublicationTime : Str := strB "publication-time"
def kProtocolVersions : Str := strB "protocol-versions"
def kIntroPoints : Str := strB "introduction-points"
def kSignature : Str := strB "signature"
def tRSAPUBLICKEY : Str := strB "RSA PUBLIC KEY"
def tMESSAGE : Str := strB "MESSAGE"
def tSIGNATURE : Str := strB "SIGNATURE"

/-! ### IntroductionPoint (intropoint.go) -/

structure IntroductionPoint where
  Identity : Str
  InternetAddress : NetIP
  OnionPort : Nat
  OnionKey : RSAPublicKey
  ServiceKey : RSAPublicKey
deriving DecidableEq, Repr

/-- Body of the `ParseIntroPoints` loop for one tokenized record
(`intropoint.go` lines 32–71); `none` is the per-record skip. -/
def parseIntroPointDoc (ext : Externals) (doc : Doc) : Option IntroductionPoint :=
  if hasKey doc kIntroPoint = false then none
  else
    match Base32Decode (fjoined doc kIntroPoint) with
    | none => none
    | some identity =>
      match ext.parseIP (fjoined doc kIpAddress) with
      | none => none
      | some address =>
        match InetPortFromByteString (fjoined doc kOnionPort) with
        | none => none
        | some onion_port =>
          match DecodePublicKeyDER (fjoined doc kOnionKey) with
          | none => none
          | some (onion_key, _) =>
            match DecodePublicKeyDER (fjoined doc kServiceKey) with
            | none => none
            | some (service_key, _) =>
              some { Identity := identity, InternetAddress := address,
                     OnionPort := onion_port, OnionKey := onion_key,
                     ServiceKey := service_key }

def ParseIntroPointsDocs (ext : Externals) (docs : List Doc) : List IntroductionPoint :=
  docs.filterMap (parseIntroPointDoc ext)

/-- `ParseIntroPoints` (intropoint.go lines 30–74). -/
def ParseIntroPoints (ext : Externals) (s : Str) : List IntroductionPoint × Str :=
  let pr := ParseTorDocument s
  (ParseIntroPointsDocs ext pr.1, pr.2)

/-- `IntroductionPoint.Encode` (intropoint.go lines 87–108); `none` models
the `log.Fatalf` on a DER-encoding failure. -/
def IntroductionPoint.Encode (ext : Externals) (ip : IntroductionPoint) : Option (List Item) :=
  match EncodePublicKeyDER ip.OnionKey with
  | none => none
  | some onionKeyDER =>
    match EncodePublicKeyDER ip.ServiceKey with
    | none => none
    | some serviceKeyDER =>
      some [Item.kv kIntroPoint (Base32Encode ip.Identity),
            Item.kv kIpAddress (ext.ipToString ip.InternetAddress),
            Item.kv kOnionPort (natToDec ip.OnionPort),
            Item.kv kOnionKey [], Item.obj tRSAPUBLICKEY onionKeyDER,
            Item.kv kServiceKey [], Item.obj tRSAPUBLICKEY serviceKeyDER]

/-- `MakeIntroPointsDocument` (intropoint.go lines 110–115). -/
def MakeIntroPointsDocument (ext : Externals) : List IntroductionPoint → Option (List Item)
  | [] => some []
  | ip :: rest =>
    match ip.Encode ext, MakeIntroPointsDocument ext rest with
    | some e, some r => some (e ++ r)
    | _, _ => none

/-! ### OnionDescriptor (oniondesc.go) -/

structure OnionDescriptor where
  DescId : Str
  Version : Int
  PermanentKey : RSAPublicKey
  SecretIdPart : Str
  PublicationTime : Int
  ProtocolVersions : List Int
  IntroductionPoints : List IntroductionPoint
  Signature : Str
deriving DecidableEq, Repr

/-! ### Identifier derivation (oniondesc.go lines 153–176) -/

/-- Go's `uint32(x)` conversion of an `int64`: the low 32 bits. -/
def u32 (t : Int) : Nat := (t % (2^32 : Int)).toNat

/-- The rotation bucket computed inside `calcSecretId` (line 156):
`(uint32(current_time) + perm_id_byte*86400/256)/86400` in 32-bit
unsigned arithmetic. -/
def timePeriod (b0 : Nat) (t : Int) : Nat :=
  (u32 t + (b0 * 86400) % 2^32 / 256) % 2^32 / 86400

/-- The spec's formula for the rotation bucket:
`floor((unixTime + b0 * 86400 / 256) / 86400)` as a 32-bit unsigned
integer, `b0` the first byte of `permanentId` as unsigned 0–255. -/
def timePeriodSpec (b0 : Nat) (t : Int) : Nat :=
  (((t + (b0 * 86400 / 256 : Nat)) % (2^32 : Int)).toNat) / 86400

/-- Big-endian 4-byte serialization of a `uint32`
(`binary.Write(w, binary.BigEndian, x)`). -/
def be32 (n : Nat) : Str := [n / 2^24 % 256, n / 2^16 % 256, n / 2^8 % 256, n % 256]

/-- `calcSecretId` (oniondesc.go lines 153–165).  `none` models the index
panic on an empty `perm_id`; the hash writes accumulate into a buffer that
is hashed with SHA-1 (external, a parameter here). -/
def calcSecretId (sha1 : Str → Str) (perm_id : Str) (current_time : Int)
    (replica : Nat) : Option Str :=
  match perm_id with
  | [] => none
  | b0 :: _ =>
    let time_period := be32 (timePeriod b0 current_time)
    some (sha1 (([] ++ time_period) ++ [replica]))

/-- `calcDescriptorId` (oniondesc.go lines 167–173). -/
def calcDescriptorId (sha1 : Str → Str) (perm_id secret_id : Str) : Str :=
  sha1 (([] ++ perm_id) ++ secret_id)

/-- Modelled from the spec: `CalcPermanentId` (KeyIdentity) — "given a
public key, computes its 20-byte permanent identity fingerprint (a hash of
the key material)", "hash of the key's DER encoding, truncated to 20
bytes". -/
def CalcPermanentId (ext : Externals) (pk : RSAPublicKey) : Option Str :=
  (EncodePublicKeyDER pk).map (fun der => (ext.sha1 der).take 20)

/-- `NewOnionDescriptor` (oniondesc.go lines 38–55).  The wall clock read
`time.Now().Unix()` is the explicit parameter `now`; `byte(replica)`
truncates the replica index; the `CalcPermanentId` error is discarded in
the source, after which the empty identity would make `calcSecretId` panic
(`none` here). -/
def NewOnionDescriptor (ext : Externals) (perm_pk : RSAPublicKey)
    (ips : List IntroductionPoint) (replica : Nat) (now : Int) : Option OnionDescriptor :=
  match CalcPermanentId ext perm_pk with
  | none => none
  | some perm_id =>
    match calcSecretId ext.sha1 perm_id now (replica % 256) with
    | none => none
    | some secret_id =>
      some { DescId := calcDescriptorId ext.sha1 perm_id secret_id,
             Version := 2,
             PermanentKey := perm_pk,
             SecretIdPart := secret_id,
             PublicationTime := now - Int.tmod now (60 * 60),
             ProtocolVersions := [2, 3],
             IntroductionPoints := ips,
             Signature := [] }

/-! ### Descriptor parse, body and sign (oniondesc.go lines 59–149) -/

/-- Body of the `ParseOnionDescriptors` loop for one tokenized record
(oniondesc.go lines 61–96).  `some none` is the per-record skip
(`continue` after a diagnostic); the outer `none` is the panic raised by
`doc["signature"][0]` when the signature field is absent entirely (a Go
nil-slice index).  Unset fields keep their Go zero values. -/
def parseDescriptorDoc (ext : Externals) (doc : Doc) : Option (Option OnionDescriptor) :=
  if hasKey doc kRendezvous = false then some none
  else
    match parseDecInt (fjoined doc kVersion) with
    | none => some none
    | some version =>
      match DecodePublicKeyDER (fjoined doc kPermanentKey) with
      | none => some none
      | some (permanent_key, _) =>
        let ips := (ParseIntroPoints ext (fjoined doc kIntroPoints)).1
        match (docGet doc kSignature).head? with
        | none => none
        | some group0 =>
          if group0.length < 1 then some none
          else some (some { DescId := fjoined doc kRendezvous,
                            Version := version,
                            PermanentKey := permanent_key,
                            SecretIdPart := [],
                            PublicationTime := 0,
                            ProtocolVersions := [],
                            IntroductionPoints := ips,
                            Signature := fjoined doc kSignature })

/-- The descriptor loop over all records; a panic in any record aborts the
whole call. -/
def ParseOnionDescriptorsDocs (ext : Externals) : List Doc → Option (List OnionDescriptor)
  | [] => some []
  | d :: ds =>
    match parseDescriptorDoc ext d with
    | none => none
    | some none => ParseOnionDescriptorsDocs ext ds
    | some (some desc) => (ParseOnionDescriptorsDocs ext ds).map (fun l => desc :: l)

/-- `ParseOnionDescriptors` (oniondesc.go lines 59–100). -/
def ParseOnionDescriptors (ext : Externals) (s : Str) : Option (List OnionDescriptor × Str) :=
  let pr := ParseTorDocument s
  (ParseOnionDescriptorsDocs ext pr.1).map (fun descs => (descs, pr.2))

/-- `OnionDescriptor.Body` (oniondesc.go lines 102–131); `none` models the
`log.Fatalf` on a DER-encoding failure.  The introduction-points block is
emitted only for a nonempty list, as a PEM MESSAGE object whose payload is
the serialized sub-document. -/
def OnionDescriptor.Body (ext : Externals) (desc : OnionDescriptor) : Option (List Item) :=
  match EncodePublicKeyDER desc.PermanentKey with
  | none => none
  | some perm_pk_der =>
    match (if desc.IntroductionPoints.length = 0 then some ([] : List Item)
           else (MakeIntroPointsDocument ext desc.IntroductionPoints).map
             (fun intro_block =>
               [Item.kv kIntroPoints [], Item.obj tMESSAGE (renderItems intro_block)])) with
    | none => none
    | some introItems =>
      some ([Item.kv kRendezvous (Base32Encode desc.DescId),
             Item.kv kVersion (intToDec desc.Version),
             Item.kv kPermanentKey [], Item.obj tRSAPUBLICKEY perm_pk_der,
             Item.kv kSecretIdPart (Base32Encode desc.SecretIdPart),
             Item.kv kPublicationTime (ext.timeFormat desc.PublicationTime),
             Item.kv kProtocolVersions
               (List.intercalate (strB ",") (desc.ProtocolVersions.map intToDec))]
            ++ introItems
            ++ [Item.kv kSignature []])

/-- `CalcDescriptorBodyDigest` (oniondesc.go lines 174–176): `Hash` over the
exact body bytes; the hash algorithm is an external configuration
parameter. -/
def CalcDescriptorBodyDigest (ext : Externals) (descBody : List Item) : Str :=
  ext.hash (renderItems descBody)

/-- `encodeSignature` (oniondesc.go lines 146–149): a PEM SIGNATURE block. -/
def encodeSignature (signature : Str) : List Item := [Item.obj tSIGNATURE signature]

/-- `OnionDescriptor.Sign` (oniondesc.go lines 133–144); the signing
callback may fail (`none`), which is fatal (`log.Fatalf`): no document is
returned. -/
def OnionDescriptor.Sign (ext : Externals) (desc : OnionDescriptor)
    (doSign : Str → Option Str) : Option (List Item) :=
  match desc.Body ext with
  | none => none
  | some descBody =>
    match doSign (CalcDescriptorBodyDigest ext descBody) with
    | none => none
    | some signature => some (descBody ++ encodeSignature signature)

/-! ### Round trip of introduction points -/

/-- A well-formed constructed introduction point: identity is a byte
sequence, the external IP codec round-trips its address, and the port fits
in 16 bits. -/
def WellFormedIP (ext : Externals) (ip : IntroductionPoint) : Prop :=
  (∀ b ∈ ip.Identity, b < 256) ∧
  ext.parseIP (ext.ipToString ip.InternetAddress) = some ip.InternetAddress ∧
  ip.OnionPort < 65536

theorem Encode_shape (ext : Externals) (ip : IntroductionPoint) (items : List Item)
    (h : ip.Encode ext = some items) :
    ∃ oder sder,
      EncodePublicKeyDER ip.OnionKey = some oder ∧
      EncodePublicKeyDER ip.ServiceKey = some sder ∧
      items = [Item.kv kIntroPoint (Base32Encode ip.Identity),
               Item.kv kIpAddress (ext.ipToString ip.InternetAddress),
               Item.kv kOnionPort (natToDec ip.OnionPort),
               Item.kv kOnionKey [], Item.obj tRSAPUBLICKEY oder,
               Item.kv kServiceKey [], Item.obj tRSAPUBLICKEY sder] := by
  unfold IntroductionPoint.Encode at h
  match ho : EncodePublicKeyDER ip.OnionKey with
  | none => rw [ho] at h; exact absurd h (by simp)
  | some oder =>
    rw [ho] at h
    match hs : EncodePublicKeyDER ip.ServiceKey with
    | none => rw [hs] at h; exact absurd h (by simp)
    | some sder =>
      rw [hs] at h
      exact ⟨oder, sder, rfl, rfl, by injection h.symm⟩

theorem tokenize_introItems (ext : Externals) (ip : IntroductionPoint) (oder sder : Str) :
    tokenize [Item.kv kIntroPoint (Base32Encode ip.Identity),
              Item.kv kIpAddress (ext.ipToString ip.InternetAddress),
              Item.kv kOnionPort (natToDec ip.OnionPort),
              Item.kv kOnionKey [], Item.obj tRSAPUBLICKEY oder,
              Item.kv kServiceKey [], Item.obj tRSAPUBLICKEY sder] =
      [(kIntroPoint, Base32Encode ip.Identity),
       (kIpAddress, ext.ipToString ip.InternetAddress),
       (kOnionPort, natToDec ip.OnionPort),
       (kOnionKey, oder), (kServiceKey, sder)] := by
  simp [tokenize]

theorem parseIntroPointDoc_encode (ext : Externals) (ip : IntroductionPoint)
    (oder sder : Str)
    (hid : ∀ b ∈ ip.Identity, b < 256)
    (hip : ext.parseIP (ext.ipToString ip.InternetAddress) = some ip.InternetAddress)
    (hport : ip.OnionPort < 65536)
    (ho : EncodePublicKeyDER ip.OnionKey = some oder)
    (hs : EncodePublicKeyDER ip.ServiceKey = some sder) :
    parseIntroPointDoc ext
      [(kIntroPoint, Base32Encode ip.Identity),
       (kIpAddress, ext.ipToString ip.InternetAddress),
       (kOnionPort, natToDec ip.OnionPort),
       (kOnionKey, oder), (kServiceKey, sder)] = some ip := by
  have hdo := DecodePublicKeyDER_Encode _ _ ho
  have hds := DecodePublicKeyDER_Encode _ _ hs
  have hb32 := Base32Decode_Encode _ hid
  have hpt := InetPort_natToDec _ hport
  unfold parseIntroPointDoc
  simp +decide [hasKey, fjoined, docGet, hb32, hip, hpt, hdo, hds]

theorem introToks_markerGroup (ext : Externals) (ip : IntroductionPoint) (oder sder : Str) :
    MarkerGroup kIntroPoint
      [(kIntroPoint, Base32Encode ip.Identity),
       (kIpAddress, ext.ipToString ip.InternetAddress),
       (kOnionPort, natToDec ip.OnionPort),
       (kOnionKey, oder), (kServiceKey, sder)] := by
  refine ⟨(kIntroPoint, Base32Encode ip.Identity), _, rfl, rfl, ?_⟩
  intro t' ht'
  simp only [List.mem_cons, List.not_mem_nil, or_false] at ht'
  rcases ht' with rfl | rfl | rfl | rfl
  · exact (by decide : kIpAddress ≠ kIntroPoint)
  · exact (by decide : kOnionPort ≠ kIntroPoint)
  · exact (by decide : kOnionKey ≠ kIntroPoint)
  · exact (by decide : kServiceKey ≠ kIntroPoint)

theorem introEnc_docs (ext : Externals) :
    ∀ ips enc, MakeIntroPointsDocument ext ips = some enc →
      (∀ ip ∈ ips, WellFormedIP ext ip) →
      ∃ gs : List Doc, tokenize enc = gs.flatten ∧
        (∀ g ∈ gs, MarkerGroup kIntroPoint g) ∧
        gs.length = ips.length ∧
        ParseIntroPointsDocs ext gs = ips := by
  intro ips
  induction ips with
  | nil =>
    intro enc henc _
    have he : enc = [] := by
      unfold MakeIntroPointsDocument at henc
      injection henc.symm
    subst he
    exact ⟨[], by simp [tokenize], by simp, by simp, rfl⟩
  | cons ip rest ih =>
    intro enc henc hv
    unfold MakeIntroPointsDocument at henc
    match he : ip.Encode ext, hr : MakeIntroPointsDocument ext rest with
    | none, _ => rw [he] at henc; exact absurd henc (by simp)
    | some e, none => rw [he, hr] at henc; exact absurd henc (by simp)
    | some e, some r =>
      rw [he, hr] at henc
      have henc2 : enc = e ++ r := by injection henc.symm
      subst henc2
      obtain ⟨oder, sder, ho, hs, hitems⟩ := Encode_shape ext ip e he
      obtain ⟨gs, hflat, hmk, hlen, hparse⟩ := ih r hr (fun q hq => hv q (by simp [hq]))
      have hsafe : endsSafe e = true := by rw [hitems]; rfl
      have hwf := hv ip (by simp)
      obtain ⟨hid, hipr, hport⟩ := hwf
      refine ⟨[(kIntroPoint, Base32Encode ip.Identity),
               (kIpAddress, ext.ipToString ip.InternetAddress),
               (kOnionPort, natToDec ip.OnionPort),
               (kOnionKey, oder), (kServiceKey, sder)] :: gs, ?_, ?_, ?_, ?_⟩
      · rw [tokenize_append e r hsafe, hflat, hitems, tokenize_introItems]
        simp
      · intro g hg
        rcases List.mem_cons.mp hg with rfl | hg'
        · exact introToks_markerGroup ext ip oder sder
        · exact hmk g hg'
      · simp [hlen]
      · unfold ParseIntroPointsDocs
        rw [List.filterMap_cons]
        rw [parseIntroPointDoc_encode ext ip oder sder hid hipr hport ho hs]
        exact congrArg _ hparse

/-- Parsing the serialized intro-point sub-document recovers the records. -/
theorem ParseIntroPoints_MakeDoc (ext : Externals) (ips : List IntroductionPoint)
    (enc : List Item) (henc : MakeIntroPointsDocument ext ips = some enc)
    (hv : ∀ ip ∈ ips, WellFormedIP ext ip) :
    ParseIntroPoints ext (renderItems enc) = (ips, []) := by
  obtain ⟨gs, hflat, hmk, hlen, hparse⟩ := introEnc_docs ext ips enc henc hv
  unfold ParseIntroPoints ParseTorDocument
  rw [scanItems_render]
  show (ParseIntroPointsDocs ext (docsOfItems enc), ([] : Str)) = (ips, [])
  cases gs with
  | nil =>
    have hips : ips = [] := by
      cases ips with
      | nil => rfl
      | cons a l => exact absurd hlen (by simp)
    subst hips
    have he : enc = [] := by
      unfold MakeIntroPointsDocument at henc
      injection henc.symm
    subst he
    rfl
  | cons g gs' =>
    have hne : (g :: gs') ≠ [] := by simp
    unfold docsOfItems
    rw [hflat, docsOfToks_groups kIntroPoint (g :: gs') hne hmk, hparse]

/-! ### Claims about identifier derivation -/

theorem timePeriod_eq_spec (b0 : Nat) (t : Int) (hb0 : b0 < 256) :
    timePeriod b0 t = timePeriodSpec b0 t := by
  unfold timePeriod timePeriodSpec u32
  have h32n : (2:Nat)^32 = 4294967296 := by norm_num
  have h32i : (2:Int)^32 = 4294967296 := by norm_num
  rw [h32n, h32i]
  have hm : (b0 * 86400) % 4294967296 = b0 * 86400 := Nat.mod_eq_of_lt (by omega)
  rw [hm]
  congr 1
  omega

/-- C1: for a non-empty `permanentId` with first byte `b0 < 256`, unix time
`t` and replica byte `r`, `calcSecretId` is the SHA-1 hash (the external
hash parameter) of the 4-byte big-endian `timePeriod` followed by the
single replica byte, with `timePeriod = floor((t + b0*86400/256)/86400)`
in 32-bit unsigned arithmetic. -/
theorem calcSecretId_spec (sha1 : Str → Str) (b0 : Nat) (rest : Str) (t : Int)
    (r : Nat) (hb0 : b0 < 256) :
    calcSecretId sha1 (b0 :: rest) t r =
      some (sha1 (be32 (timePeriodSpec b0 t) ++ [r])) := by
  show some (sha1 (([] ++ be32 (timePeriod b0 t)) ++ [r])) = _
  rw [timePeriod_eq_spec b0 t hb0]
  simp

theorem calcSecretId_spec_witness :
    calcSecretId (fun s => s) (0 :: []) 0 0 =
      some ((fun s => s) (be32 (timePeriodSpec 0 0) ++ [0])) :=
  calcSecretId_spec (fun s => s) 0 [] 0 0 (by decide)

/-- C2: `calcDescriptorId` hashes the concatenation of `permanentId` and
`secretIdPart`, in that order. -/
theorem calcDescriptorId_spec (sha1 : Str → Str) (perm_id secret_id : Str) :
    calcDescriptorId sha1 perm_id secret_id = sha1 (perm_id ++ secret_id) := by
  unfold calcDescriptorId
  simp

/-- C7 fails as stated: at the 32-bit wraparound (`t = 2^32 - 86400`, first
identity byte 0) adding one day resets `timePeriod` to 0 instead of
incrementing it. -/
theorem timePeriod_day_counterexample :
    ¬ (timePeriod 0 ((4294880896 : Int) + 86400) = timePeriod 0 4294880896 + 1) := by
  decide

/-- C7 amended: for a fixed first identity byte, adding one day increments
`timePeriod` by exactly one provided the 32-bit accumulator does not wrap. -/
theorem timePeriod_day_increment (b0 : Nat) (t : Int) (hb0 : b0 < 256)
    (hnw : u32 t + 86400 + b0 * 86400 / 256 < 2^32) :
    timePeriod b0 (t + 86400) = timePeriod b0 t + 1 := by
  have h32n : (2:Nat)^32 = 4294967296 := by norm_num
  have h32i : (2:Int)^32 = 4294967296 := by norm_num
  unfold u32 at hnw
  rw [h32n, h32i] at hnw
  unfold timePeriod u32
  rw [h32n, h32i]
  have hm : (b0 * 86400) % 4294967296 = b0 * 86400 := Nat.mod_eq_of_lt (by omega)
  rw [hm]
  have ha : ((t + 86400) % (4294967296:Int)).toNat =
      (t % (4294967296:Int)).toNat + 86400 := by omega
  rw [ha]
  have h1 : ((t % (4294967296:Int)).toNat + 86400 + b0 * 86400 / 256) % 4294967296 =
      (t % (4294967296:Int)).toNat + 86400 + b0 * 86400 / 256 :=
    Nat.mod_eq_of_lt (by omega)
  have h2 : ((t % (4294967296:Int)).toNat + b0 * 86400 / 256) % 4294967296 =
      (t % (4294967296:Int)).toNat + b0 * 86400 / 256 :=
    Nat.mod_eq_of_lt (by omega)
  rw [h1, h2, Nat.add_right_comm _ 86400 _, Nat.add_div_right _ (by norm_num)]

theorem timePeriod_day_increment_witness :
    (0:Nat) < 256 ∧ (u32 0 + 86400 + 0 * 86400 / 256 < 2^32) ∧
      timePeriod 0 (0 + 86400) = timePeriod 0 0 + 1 :=
  ⟨by decide, by decide, timePeriod_day_increment 0 0 (by decide) (by decide)⟩

/-- C3: parsing the byte serialization of an encoded introduction point
yields exactly that record, with identical identity, address, port and key
material. -/
theorem IntroPoint_roundtrip (ext : Externals) (ip : IntroductionPoint)
    (items : List Item) (henc : ip.Encode ext = some items)
    (hwf : WellFormedIP ext ip) :
    ParseIntroPoints ext (renderItems items) = ([ip], []) := by
  have hmk : MakeIntroPointsDocument ext [ip] = some items := by
    simp [MakeIntroPointsDocument, henc]
  exact ParseIntroPoints_MakeDoc ext [ip] items hmk
    (by intro q hq; simp at hq; subst hq; exact hwf)

/-- A concrete instantiation of the external collaborators, used to
evaluate the development on closed inputs. -/
def extModel : Externals where
  sha1 := fun s => (List.range 20).map (fun i => (s.sum + s.length + i) % 256)
  ipToString := fun a => a.bytes
  parseIP := fun s => some ⟨s⟩
  timeFormat := fun t => intToDec t
  hash := fun s => [s.length % 256, s.sum % 256]

def ip0 : IntroductionPoint :=
  { Identity := [7, 200], InternetAddress := ⟨[10, 0, 0, 1]⟩, OnionPort := 443,
    OnionKey := { N := 187, E := 3 }, ServiceKey := { N := 203, E := 5 } }

theorem IntroPoint_roundtrip_witness :
    ip0.Encode extModel = some ((ip0.Encode extModel).getD []) ∧
      WellFormedIP extModel ip0 ∧
      ParseIntroPoints extModel (renderItems ((ip0.Encode extModel).getD [])) =
        ([ip0], []) :=
  ⟨by decide, ⟨by decide, by decide, by decide⟩,
    IntroPoint_roundtrip extModel ip0 _ (by decide)
      ⟨by decide, by decide, by decide⟩⟩

/-- C5: in a batch of three tokenized introduction-point records where only
the second has an invalid (out-of-range or non-numeric) port, parsing
returns exactly the parses of the first and third records, in source
order; the malformed record is dropped without failing the batch. -/
theorem ParseIntroPoints_skips_bad_port (ext : Externals) (d1 d2 d3 : Doc)
    (r1 r3 : IntroductionPoint)
    (h1 : parseIntroPointDoc ext d1 = some r1)
    (h3 : parseIntroPointDoc ext d3 = some r3)
    (hmark : hasKey d2 kIntroPoint = true)
    (hident : ∃ idb, Base32Decode (fjoined d2 kIntroPoint) = some idb)
    (haddr : ∃ a, ext.parseIP (fjoined d2 kIpAddress) = some a)
    (hport : InetPortFromByteString (fjoined d2 kOnionPort) = none) :
    ParseIntroPointsDocs ext [d1, d2, d3] = [r1, r3] := by
  have h2 : parseIntroPointDoc ext d2 = none := by
    obtain ⟨idb, hi⟩ := hident
    obtain ⟨a, ha⟩ := haddr
    unfold parseIntroPointDoc
    rw [hmark]
    simp [hi, ha, hport]
  unfold ParseIntroPointsDocs
  simp [List.filterMap_cons, h1, h2, h3]

def ipdoc1 : Doc :=
  [(kIntroPoint, Base32Encode [1]), (kIpAddress, [9, 9, 9, 9]),
   (kOnionPort, natToDec 80), (kOnionKey, [187, 255, 3, 255]),
   (kServiceKey, [203, 255, 5, 255])]

def ipdoc2bad : Doc :=
  [(kIntroPoint, Base32Encode [2]), (kIpAddress, [8, 8, 8, 8]),
   (kOnionPort, natToDec 99999), (kOnionKey, [187, 255, 3, 255]),
   (kServiceKey, [203, 255, 5, 255])]

def ipdoc3 : Doc :=
  [(kIntroPoint, Base32Encode [3]), (kIpAddress, [7, 7, 7, 7]),
   (kOnionPort, natToDec 8080), (kOnionKey, [187, 255, 3, 255]),
   (kServiceKey, [203, 255, 5, 255])]

def iprec1 : IntroductionPoint :=
  { Identity := [1], InternetAddress := ⟨[9, 9, 9, 9]⟩, OnionPort := 80,
    OnionKey := { N := 187, E := 3 }, ServiceKey := { N := 203, E := 5 } }

def iprec3 : IntroductionPoint :=
  { Identity := [3], InternetAddress := ⟨[7, 7, 7, 7]⟩, OnionPort := 8080,
    OnionKey := { N := 187, E := 3 }, ServiceKey := { N := 203, E := 5 } }

theorem ParseIntroPoints_skips_bad_port_witness :
    parseIntroPointDoc extModel ipdoc1 = some iprec1 ∧
      parseIntroPointDoc extModel ipdoc3 = some iprec3 ∧
      InetPortFromByteString (fjoined ipdoc2bad kOnionPort) = none ∧
      ParseIntroPointsDocs extModel [ipdoc1, ipdoc2bad, ipdoc3] = [iprec1, iprec3] :=
  ⟨by decide, by decide, by decide,
    ParseIntroPoints_skips_bad_port extModel ipdoc1 ipdoc2bad ipdoc3 iprec1 iprec3
      (by decide) (by decide) (by decide) ⟨[2], by decide⟩ ⟨⟨[8, 8, 8, 8]⟩, by decide⟩
      (by decide)⟩

/-- C6: `Body` is a pure function of the descriptor's non-signature fields:
two descriptor values agreeing on every field except possibly `Signature`
produce identical bodies (so repeated calls on the same value are
byte-identical and the signature is excluded from the canonical body). -/
theorem Body_ignores_signature (ext : Externals) (d1 d2 : OnionDescriptor)
    (hid : d1.DescId = d2.DescId) (hv : d1.Version = d2.Version)
    (hpk : d1.PermanentKey = d2.PermanentKey)
    (hsi : d1.SecretIdPart = d2.SecretIdPart)
    (hpt : d1.PublicationTime = d2.PublicationTime)
    (hpv : d1.ProtocolVersions = d2.ProtocolVersions)
    (hip : d1.IntroductionPoints = d2.IntroductionPoints) :
    d1.Body ext = d2.Body ext := by
  obtain ⟨a1, b1, c1, e1, f1, g1, i1, s1⟩ := d1
  obtain ⟨a2, b2, c2, e2, f2, g2, i2, s2⟩ := d2
  simp only at hid hv hpk hsi hpt hpv hip
  subst hid hv hpk hsi hpt hpv hip
  rfl

def descA : OnionDescriptor :=
  { DescId := [1, 2], Version := 2, PermanentKey := { N := 187, E := 3 },
    SecretIdPart := [4, 5], PublicationTime := 3600, ProtocolVersions := [2, 3],
    IntroductionPoints := [ip0], Signature := [] }

theorem Body_ignores_signature_witness :
    descA.Body extModel =
      ({ descA with Signature := [9] } : OnionDescriptor).Body extModel :=
  Body_ignores_signature extModel descA { descA with Signature := [9] }
    rfl rfl rfl rfl rfl rfl rfl

/-- C8: when the signing callback succeeds on the digest of the canonical
body, `Sign` returns exactly the body followed by a PEM SIGNATURE block
wrapping the returned bytes; when the callback fails, `Sign` returns no
document at all (never a partial or unsigned one). -/
theorem Sign_spec (ext : Externals) (desc : OnionDescriptor)
    (doSign : Str → Option Str) (body : List Item)
    (hbody : desc.Body ext = some body) :
    (∀ sig, doSign (CalcDescriptorBodyDigest ext body) = some sig →
       desc.Sign ext doSign = some (body ++ encodeSignature sig)) ∧
    (doSign (CalcDescriptorBodyDigest ext body) = none →
       desc.Sign ext doSign = none) := by
  constructor
  · intro sig hsig
    simp [OnionDescriptor.Sign, hbody, hsig]
  · intro hsig
    simp [OnionDescriptor.Sign, hbody, hsig]

def bodyA : List Item := (descA.Body extModel).getD []

theorem Sign_spec_witness :
    descA.Sign extModel (fun d => some (d ++ [42])) =
      some (bodyA ++ encodeSignature (CalcDescriptorBodyDigest extModel bodyA ++ [42])) ∧
    descA.Sign extModel (fun _ => none) = none :=
  ⟨(Sign_spec extModel descA _ bodyA (by decide)).1 _ rfl,
   (Sign_spec extModel descA _ bodyA (by decide)).2 rfl⟩

/-- C9: a freshly constructed descriptor has version 2, protocol versions
[2, 3], publication time floored to the start of the hour, secret-id-part
derived from the permanent identity, current time and replica byte,
descriptor-id derived from the permanent identity and secret-id-part, and
stores the given introduction points. -/
theorem NewOnionDescriptor_spec (ext : Externals) (pk : RSAPublicKey)
    (ips : List IntroductionPoint) (replica : Nat) (now : Int) (perm_id : Str)
    (d : OnionDescriptor)
    (hrep : replica < 256) (hnow : 0 ≤ now)
    (hpid : CalcPermanentId ext pk = some perm_id)
    (hd : NewOnionDescriptor ext pk ips replica now = some d) :
    d.Version = 2 ∧ d.ProtocolVersions = [2, 3] ∧
      d.PublicationTime = 3600 * (now / 3600) ∧
      calcSecretId ext.sha1 perm_id now replica = some d.SecretIdPart ∧
      d.DescId = calcDescriptorId ext.sha1 perm_id d.SecretIdPart ∧
      d.IntroductionPoints = ips ∧ d.PermanentKey = pk := by
  unfold NewOnionDescriptor at hd
  simp only [hpid, Nat.mod_eq_of_lt hrep] at hd
  match hs : calcSecretId ext.sha1 perm_id now replica with
  | none => simp only [hs] at hd; exact absurd hd (by simp)
  | some sid =>
    simp only [hs, Option.some.injEq] at hd
    subst hd
    refine ⟨rfl, rfl, ?_, rfl, rfl, rfl, rfl⟩
    show now - Int.tmod now (60 * 60) = 3600 * (now / 3600)
    rw [Int.tmod_eq_emod (by omega) (by omega)]
    omega

def pid0 : Str := (CalcPermanentId extModel { N := 187, E := 3 }).getD []

def newd0 : OnionDescriptor :=
  (NewOnionDescriptor extModel { N := 187, E := 3 } [] 1 7250).getD descA

theorem NewOnionDescriptor_spec_witness :
    (1:Nat) < 256 ∧ (0:Int) ≤ 7250 ∧
      CalcPermanentId extModel { N := 187, E := 3 } = some pid0 ∧
      NewOnionDescriptor extModel { N := 187, E := 3 } [] 1 7250 = some newd0 ∧
      (newd0.Version = 2 ∧ newd0.ProtocolVersions = [2, 3] ∧
        newd0.PublicationTime = 3600 * ((7250:Int) / 3600) ∧
        calcSecretId extModel.sha1 pid0 7250 1 = some newd0.SecretIdPart ∧
        newd0.DescId = calcDescriptorId extModel.sha1 pid0 newd0.SecretIdPart ∧
        newd0.IntroductionPoints = [] ∧ newd0.PermanentKey = { N := 187, E := 3 }) :=
  ⟨by decide, by decide, by decide, by decide,
    NewOnionDescriptor_spec extModel { N := 187, E := 3 } [] 1 7250 pid0 newd0
      (by decide) (by decide) (by decide) (by decide)⟩

def noSigItems : List Item :=
  [Item.kv kRendezvous (strB "aa"), Item.kv kVersion (natToDec 2),
   Item.kv kPermanentKey [], Item.obj tRSAPUBLICKEY [187, 255, 3, 255]]

/-- C10: an input whose record carries the descriptor marker field but no
signature field at all is not skipped-and-continued: indexing the first
token group of the absent field aborts the whole parse (the Go nil-slice
index panic), so the total embedding returns `none` instead of applying
the per-record skip policy. -/
theorem ParseOnionDescriptors_missing_signature_panics :
    ParseOnionDescriptors extModel (renderItems noSigItems) = none := by decide

/-! ### Round trip of descriptors -/

theorem ParseIntroPoints_nil (ext : Externals) : ParseIntroPoints ext [] = ([], []) := rfl

theorem Body_shape (ext : Externals) (desc : OnionDescriptor) (body : List Item)
    (h : desc.Body ext = some body) :
    ∃ der introItems,
      EncodePublicKeyDER desc.PermanentKey = some der ∧
      ((desc.IntroductionPoints = [] ∧ introItems = ([] : List Item)) ∨
       (∃ sub, MakeIntroPointsDocument ext desc.IntroductionPoints = some sub ∧
          introItems = [Item.kv kIntroPoints [], Item.obj tMESSAGE (renderItems sub)])) ∧
      body = [Item.kv kRendezvous (Base32Encode desc.DescId),
              Item.kv kVersion (intToDec desc.Version),
              Item.kv kPermanentKey [], Item.obj tRSAPUBLICKEY der,
              Item.kv kSecretIdPart (Base32Encode desc.SecretIdPart),
              Item.kv kPublicationTime (ext.timeFormat desc.PublicationTime),
              Item.kv kProtocolVersions
                (List.intercalate (strB ",") (desc.ProtocolVersions.map intToDec))]
            ++ introItems ++ [Item.kv kSignature []] := by
  unfold OnionDescriptor.Body at h
  match hder : EncodePublicKeyDER desc.PermanentKey with
  | none => rw [hder] at h; exact absurd h (by simp)
  | some der =>
    rw [hder] at h
    by_cases hips : desc.IntroductionPoints.length = 0
    · rw [if_pos hips] at h
      refine ⟨der, [], rfl, Or.inl ⟨List.length_eq_zero.mp hips, rfl⟩, ?_⟩
      simp only at h
      exact (Option.some.injEq _ _ ▸ h).symm
    · rw [if_neg hips] at h
      match hsub : MakeIntroPointsDocument ext desc.IntroductionPoints with
      | none => rw [hsub] at h; exact absurd h (by simp)
      | some sub =>
        rw [hsub] at h
        refine ⟨der, [Item.kv kIntroPoints [], Item.obj tMESSAGE (renderItems sub)],
          rfl, Or.inr ⟨sub, rfl, rfl⟩, ?_⟩
        simp only [Option.map_some'] at h
        exact (Option.some.injEq _ _ ▸ h).symm

theorem tokenize_bodyEmpty (A B C D E sig : Str) (der : Str) :
    tokenize [Item.kv kRendezvous A, Item.kv kVersion B, Item.kv kPermanentKey [],
              Item.obj tRSAPUBLICKEY der, Item.kv kSecretIdPart C,
              Item.kv kPublicationTime D, Item.kv kProtocolVersions E,
              Item.kv kSignature [], Item.obj tSIGNATURE sig] =
      [(kRendezvous, A), (kVersion, B), (kPermanentKey, der), (kSecretIdPart, C),
       (kPublicationTime, D), (kProtocolVersions, E), (kSignature, sig)] := by
  simp [tokenize]

theorem tokenize_bodyIntro (A B C D E P sig : Str) (der : Str) :
    tokenize [Item.kv kRendezvous A, Item.kv kVersion B, Item.kv kPermanentKey [],
              Item.obj tRSAPUBLICKEY der, Item.kv kSecretIdPart C,
              Item.kv kPublicationTime D, Item.kv kProtocolVersions E,
              Item.kv kIntroPoints [], Item.obj tMESSAGE P,
              Item.kv kSignature [], Item.obj tSIGNATURE sig] =
      [(kRendezvous, A), (kVersion, B), (kPermanentKey, der), (kSecretIdPart, C),
       (kPublicationTime, D), (kProtocolVersions, E), (kIntroPoints, P),
       (kSignature, sig)] := by
  simp [tokenize]

theorem descToks_markerGroup_empty (A B C D E sig : Str) (der : Str) :
    MarkerGroup kRendezvous
      [(kRendezvous, A), (kVersion, B), (kPermanentKey, der), (kSecretIdPart, C),
       (kPublicationTime, D), (kProtocolVersions, E), (kSignature, sig)] := by
  refine ⟨(kRendezvous, A), _, rfl, rfl, ?_⟩
  intro t' ht'
  simp only [List.mem_cons, List.not_mem_nil, or_false] at ht'
  rcases ht' with rfl | rfl | rfl | rfl | rfl | rfl
  · exact (by decide : kVersion ≠ kRendezvous)
  · exact (by decide : kPermanentKey ≠ kRendezvous)
  · exact (by decide : kSecretIdPart ≠ kRendezvous)
  · exact (by decide : kPublicationTime ≠ kRendezvous)
  · exact (by decide : kProtocolVersions ≠ kRendezvous)
  · exact (by decide : kSignature ≠ kRendezvous)

theorem descToks_markerGroup_intro (A B C D E P sig : Str) (der : Str) :
    MarkerGroup kRendezvous
      [(kRendezvous, A), (kVersion, B), (kPermanentKey, der), (kSecretIdPart, C),
       (kPublicationTime, D), (kProtocolVersions, E), (kIntroPoints, P),
       (kSignature, sig)] := by
  refine ⟨(kRendezvous, A), _, rfl, rfl, ?_⟩
  intro t' ht'
  simp only [List.mem_cons, List.not_mem_nil, or_false] at ht'
  rcases ht' with rfl | rfl | rfl | rfl | rfl | rfl | rfl
  · exact (by decide : kVersion ≠ kRendezvous)
  · exact (by decide : kPermanentKey ≠ kRendezvous)
  · exact (by decide : kSecretIdPart ≠ kRendezvous)
  · exact (by decide : kPublicationTime ≠ kRendezvous)
  · exact (by decide : kProtocolVersions ≠ kRendezvous)
  · exact (by decide : kIntroPoints ≠ kRendezvous)
  · exact (by decide : kSignature ≠ kRendezvous)

theorem parseDescriptorDoc_bodyEmpty (ext : Externals) (A C D E sig : Str) (v : Int)
    (der : Str) (key : RSAPublicKey)
    (hder : DecodePublicKeyDER der = some (key, []))
    (hsig : ¬ sig.length < 1) :
    parseDescriptorDoc ext
      [(kRendezvous, A), (kVersion, intToDec v), (kPermanentKey, der),
       (kSecretIdPart, C), (kPublicationTime, D), (kProtocolVersions, E),
       (kSignature, sig)] =
      some (some { DescId := A, Version := v, PermanentKey := key,
                   SecretIdPart := [], PublicationTime := 0, ProtocolVersions := [],
                   IntroductionPoints := [], Signature := sig }) := by
  have hv := parseDecInt_intToDec v
  unfold parseDescriptorDoc
  simp +decide [hasKey, fjoined, docGet, hv, hder, hsig, ParseIntroPoints_nil]

theorem parseDescriptorDoc_bodyIntro (ext : Externals) (A C D E P sig : Str) (v : Int)
    (der : Str) (key : RSAPublicKey)
    (hder : DecodePublicKeyDER der = some (key, []))
    (hsig : ¬ sig.length < 1) :
    parseDescriptorDoc ext
      [(kRendezvous, A), (kVersion, intToDec v), (kPermanentKey, der),
       (kSecretIdPart, C), (kPublicationTime, D), (kProtocolVersions, E),
       (kIntroPoints, P), (kSignature, sig)] =
      some (some { DescId := A, Version := v, PermanentKey := key,
                   SecretIdPart := [], PublicationTime := 0, ProtocolVersions := [],
                   IntroductionPoints := (ParseIntroPoints ext P).1,
                   Signature := sig }) := by
  have hv := parseDecInt_intToDec v
  unfold parseDescriptorDoc
  simp +decide [hasKey, fjoined, docGet, hv, hder, hsig]

theorem docsOfToks_single (m : Str) (g : Doc) (h : MarkerGroup m g) :
    docsOfToks g = [g] := by
  have hx := docsOfToks_groups m [g] (by simp)
    (by intro g' hg'; simp at hg'; subst hg'; exact h)
  simpa using hx

/-- C4 (amended): parsing the canonical body with a signature block
appended recovers exactly one descriptor with identical version, permanent
key and introduction points; the recovered `descId` is the base-32 text
encoding of the original raw `descId` (the parser stores the wire field
verbatim), and the fields the parser does not read keep their zero
values. -/
theorem OnionDescriptor_roundtrip (ext : Externals) (desc : OnionDescriptor)
    (body : List Item) (sig : Str)
    (hbody : desc.Body ext = some body)
    (hsig : sig ≠ [])
    (hips : ∀ ip ∈ desc.IntroductionPoints, WellFormedIP ext ip) :
    ParseOnionDescriptors ext (renderItems (body ++ encodeSignature sig)) =
      some ([{ DescId := Base32Encode desc.DescId,
               Version := desc.Version,
               PermanentKey := desc.PermanentKey,
               SecretIdPart := [], PublicationTime := 0, ProtocolVersions := [],
               IntroductionPoints := desc.IntroductionPoints,
               Signature := sig }], []) := by
  obtain ⟨der, introItems, hder, hintro, hbodyeq⟩ := Body_shape ext desc body hbody
  have hdd := DecodePublicKeyDER_Encode _ _ hder
  have hsiglen : ¬ sig.length < 1 := by
    cases sig with
    | nil => exact absurd rfl hsig
    | cons a l => simp
  subst hbodyeq
  unfold ParseOnionDescriptors ParseTorDocument
  rw [scanItems_render]
  rcases hintro with ⟨hipnil, rfl⟩ | ⟨sub, hsub, rfl⟩
  · have hL : ([Item.kv kRendezvous (Base32Encode desc.DescId),
        Item.kv kVersion (intToDec desc.Version),
        Item.kv kPermanentKey [], Item.obj tRSAPUBLICKEY der,
        Item.kv kSecretIdPart (Base32Encode desc.SecretIdPart),
        Item.kv kPublicationTime (ext.timeFormat desc.PublicationTime),
        Item.kv kProtocolVersions
          (List.intercalate (strB ",") (desc.ProtocolVersions.map intToDec))]
        ++ ([] : List Item) ++ [Item.kv kSignature []]) ++ encodeSignature sig =
      [Item.kv kRendezvous (Base32Encode desc.DescId),
       Item.kv kVersion (intToDec desc.Version),
       Item.kv kPermanentKey [], Item.obj tRSAPUBLICKEY der,
       Item.kv kSecretIdPart (Base32Encode desc.SecretIdPart),
       Item.kv kPublicationTime (ext.timeFormat desc.PublicationTime),
       Item.kv kProtocolVersions
         (List.intercalate (strB ",") (desc.ProtocolVersions.map intToDec)),
       Item.kv kSignature [], Item.obj tSIGNATURE sig] := by
      simp [encodeSignature]
    rw [hL]
    dsimp only
    unfold docsOfItems
    rw [tokenize_bodyEmpty]
    rw [docsOfToks_single kRendezvous _ (descToks_markerGroup_empty _ _ _ _ _ _ _)]
    unfold ParseOnionDescriptorsDocs
    rw [parseDescriptorDoc_bodyEmpty ext _ _ _ _ _ _ _ _ hdd hsiglen]
    simp [ParseOnionDescriptorsDocs, hipnil]
  · have hL : ([Item.kv kRendezvous (Base32Encode desc.DescId),
        Item.kv kVersion (intToDec desc.Version),
        Item.kv kPermanentKey [], Item.obj tRSAPUBLICKEY der,
        Item.kv kSecretIdPart (Base32Encode desc.SecretIdPart),
        Item.kv kPublicationTime (ext.timeFormat desc.PublicationTime),
        Item.kv kProtocolVersions
          (List.intercalate (strB ",") (desc.ProtocolVersions.map intToDec))]
        ++ [Item.kv kIntroPoints [], Item.obj tMESSAGE (renderItems sub)]
        ++ [Item.kv kSignature []]) ++ encodeSignature sig =
      [Item.kv kRendezvous (Base32Encode desc.DescId),
       Item.kv kVersion (intToDec desc.Version),
       Item.kv kPermanentKey [], Item.obj tRSAPUBLICKEY der,
       Item.kv kSecretIdPart (Base32Encode desc.SecretIdPart),
       Item.kv kPublicationTime (ext.timeFormat desc.PublicationTime),
       Item.kv kProtocolVersions
         (List.intercalate (strB ",") (desc.ProtocolVersions.map intToDec)),
       Item.kv kIntroPoints [], Item.obj tMESSAGE (renderItems sub),
       Item.kv kSignature [], Item.obj tSIGNATURE sig] := by
      simp [encodeSignature]
    rw [hL]
    dsimp only
    unfold docsOfItems
    rw [tokenize_bodyIntro]
    rw [docsOfToks_single kRendezvous _ (descToks_markerGroup_intro _ _ _ _ _ _ _ _)]
    unfold ParseOnionDescriptorsDocs
    rw [parseDescriptorDoc_bodyIntro ext _ _ _ _ _ _ _ _ _ hdd hsiglen]
    rw [ParseIntroPoints_MakeDoc ext desc.IntroductionPoints sub hsub hips]
    simp [ParseOnionDescriptorsDocs]

theorem OnionDescriptor_roundtrip_witness :
    descA.Body extModel = some bodyA ∧ ([9] : Str) ≠ [] ∧
      (∀ ip ∈ descA.IntroductionPoints, WellFormedIP extModel ip) ∧
      ParseOnionDescriptors extModel (renderItems (bodyA ++ encodeSignature [9])) =
        some ([{ DescId := Base32Encode descA.DescId, Version := descA.Version,
                 PermanentKey := descA.PermanentKey, SecretIdPart := [],
                 PublicationTime := 0, ProtocolVersions := [],
                 IntroductionPoints := descA.IntroductionPoints,
                 Signature := [9] }], []) :=
  ⟨by decide, by decide,
    (by intro ip hip; simp [descA] at hip; subst hip; exact ⟨by decide, by decide, by decide⟩),
    OnionDescriptor_roundtrip extModel descA bodyA [9] (by decide) (by decide)
      (by intro ip hip; simp [descA] at hip; subst hip; exact ⟨by decide, by decide, by decide⟩)⟩

def descNI : OnionDescriptor :=
  { DescId := [0], Version := 2, PermanentKey := { N := 187, E := 3 },
    SecretIdPart := [4], PublicationTime := 3600, ProtocolVersions := [2, 3],
    IntroductionPoints := [], Signature := [] }

def wireNI : Str :=
  renderItems (((descNI.Body extModel).getD []) ++ encodeSignature [9])

set_option maxRecDepth 100000 in
/-- C4 fails as stated: for the constructed descriptor `descNI` with raw
`descId` `[0]`, parsing its body plus a placeholder signature block yields
one descriptor whose `descId` is the base-32 text `"aa"` (`[97, 97]`), not
the original raw bytes — the parser stores the wire field verbatim. -/
theorem OnionDescriptor_roundtrip_counterexample :
    descNI.DescId = [0] ∧
      (ParseOnionDescriptors extModel wireNI).map
        (fun pr => pr.1.map (fun d => d.DescId)) = some [[97, 97]] ∧
      ([[97, 97]] : List Str) ≠ [[0]] := by decide
